import Mathlib

set_option linter.unusedVariables false

/-!
Shallow embedding of `sources/io.h` of the odyssey repository: the framed,
readahead-buffered stream (`od_io_read`), the PostgreSQL v3 protocol framer
(`od_read_startup`, `od_read`), `od_io_free` and `od_write`.

The cooperative machine runtime (`machine_cond_wait`, `machine_read_raw`,
`machine_read_start`, `machine_read_stop`) is external to the excerpt; its
behaviour is modelled as an environment script: a list of condition-wait
outcomes and a list of raw-read outcomes, consumed in call order, plus two
booleans giving the results of `machine_read_start` / `machine_read_stop`.
A run that exhausts its script is undefined and denoted `none`.
-/

/-- Modelled from the spec: the readahead buffer (spec section 3 and 4.1,
`od_readahead_t`, which is outside the excerpt). `data` holds the bytes
written since the last reuse, so the write position `pos` of the C struct is
`data.length`; `pos_read` is the next byte to hand to the caller. -/
structure Readahead where
  cap : Nat
  data : List Nat
  pos_read : Nat
  deriving Repr, DecidableEq

/-- Modelled from the spec: `od_readahead_unread` is `pos_write - pos_read`
(spec section 3). -/
def od_readahead_unread (ra : Readahead) : Nat :=
  ra.data.length - ra.pos_read

/-- Modelled from the spec: `od_readahead_reuse` collapses a fully drained
buffer (`unread = 0`) by resetting both positions to 0, and must not change a
buffer with unread bytes outstanding (spec sections 3 and 4.1). -/
def od_readahead_reuse (ra : Readahead) : Readahead :=
  if od_readahead_unread ra = 0 then { ra with data := [], pos_read := 0 } else ra

/-- Outcome of one `machine_cond_wait(on_read, time_ms)` call: `ok` is true
when the call returned 0, false when it returned -1 (timeout or error), and
`dur` is the time the coroutine spent parked in the wait. -/
structure MachineWait where
  ok : Bool
  dur : Nat
  deriving Repr, DecidableEq

/-- Outcome of one `machine_read_raw` call (spec section 4.7): a positive
byte count with the bytes delivered, a retryable failure (`errno` is `EAGAIN`,
`EWOULDBLOCK` or `EINTR`), or a hard failure (any other `errno`, or EOF). -/
inductive RawRead where
  | bytes (b : Nat) (bs : List Nat)
  | again
  | hard
  deriving Repr, DecidableEq

/-- Observable machine calls made by one `od_io_read` call: how many times
`machine_cond_signal(on_read)` ran, the total time spent in condition waits,
and whether `machine_read_start` / `machine_read_stop` were invoked. -/
structure Trace where
  signals : Nat
  waitTime : Nat
  readStartCalled : Bool
  readStopCalled : Bool
  deriving Repr, DecidableEq

/-- Return value of `od_io_read`: 0 with the bytes copied into `dest`, or -1. -/
inductive ReadOutcome where
  | ok (bytes : List Nat)
  | err
  deriving Repr, DecidableEq

/-- Result of the inner retry loop of `od_io_read` (lines 115-143 of io.h):
either one of its `return -1` statements ran, or a raw read delivered bytes
and the loop broke back into the outer loop. -/
inductive InnerOut where
  | fail (ra : Readahead) (ws : List MachineWait) (rds : List RawRead) (tr : Trace)
  | got (ra : Readahead) (ws : List MachineWait) (rds : List RawRead)
      (tr : Trace) (started : Bool)
  deriving Repr, DecidableEq

/-- Trace component of an inner-loop result. -/
def InnerOut.trace : InnerOut → Trace
  | .fail _ _ _ tr => tr
  | .got _ _ _ tr _ => tr

/-- Remaining condition-wait script of an inner-loop result. -/
def InnerOut.waits : InnerOut → List MachineWait
  | .fail _ ws _ _ => ws
  | .got _ ws _ _ _ => ws

/-- Inner retry loop of `od_io_read` (io.h lines 115-143): wait on `on_read`
(fail the call when the wait fails), then attempt `machine_read_raw` into the
readahead tail; on a retryable errno arm the edge trigger with
`machine_read_start` the first time (fail when that fails) and wait again; on
a hard error fail; on delivered bytes advance the write position and break. -/
def od_io_read_wait_loop (startOk : Bool) (ra : Readahead) (tr : Trace)
    (started : Bool) : List MachineWait → List RawRead → Option InnerOut
  | [], _ => none
  | w :: ws, rds =>
    if w.ok = false then
      some (.fail ra ws rds { tr with waitTime := tr.waitTime + w.dur })
    else
      match rds with
      | [] => none
      | RawRead.bytes b bs :: rds1 =>
        some (.got { ra with data := ra.data ++ b :: bs } ws rds1
          { tr with waitTime := tr.waitTime + w.dur } started)
      | RawRead.hard :: rds1 =>
        some (.fail ra ws rds1 { tr with waitTime := tr.waitTime + w.dur })
      | RawRead.again :: rds1 =>
        if started then
          od_io_read_wait_loop startOk ra
            { tr with waitTime := tr.waitTime + w.dur } started ws rds1
        else if startOk then
          od_io_read_wait_loop startOk ra
            { tr with waitTime := tr.waitTime + w.dur, readStartCalled := true }
            true ws rds1
        else
          some (.fail ra ws rds1
            { tr with waitTime := tr.waitTime + w.dur, readStartCalled := true })

/-- Drain step of `od_io_read` (io.h lines 95-107): when the readahead has
unread bytes, copy `min unread size` of them to the destination and advance
the read position; otherwise reuse the drained buffer. -/
def od_io_read_drain (ra : Readahead) (acc : List Nat) (size : Nat) :
    Readahead × List Nat × Nat :=
  let unread := od_readahead_unread ra
  if 0 < unread then
    let to_read := min unread size
    ({ ra with pos_read := ra.pos_read + to_read },
      acc ++ (ra.data.drop ra.pos_read).take to_read,
      size - to_read)
  else
    (od_readahead_reuse ra, acc, size)

/-- Outer loop of `od_io_read` (io.h lines 93-152): drain the readahead, break
when the request is complete (calling `machine_read_stop` if reading was
started, and failing when that fails), otherwise signal `on_read` when
`read_started` is still unset and enter the inner retry loop. `fuel` bounds
the number of outer iterations; each non-final iteration consumes at least one
condition-wait event, so `waits.length + 1` is always enough. -/
def od_io_read_loop (startOk stopOk : Bool) :
    Nat → Readahead → List Nat → Nat → Bool → List MachineWait → List RawRead →
      Trace →
      Option (ReadOutcome × Readahead × List MachineWait × List RawRead × Trace)
  | 0, _, _, _, _, _, _, _ => none
  | fuel + 1, ra0, acc0, size0, started, ws, rds, tr =>
    match od_io_read_drain ra0 acc0 size0 with
    | (ra, acc, size) =>
      if size = 0 then
        if started then
          if stopOk then
            some (.ok acc, ra, ws, rds, { tr with readStopCalled := true })
          else
            some (.err, ra, ws, rds, { tr with readStopCalled := true })
        else
          some (.ok acc, ra, ws, rds, tr)
      else
        match od_io_read_wait_loop startOk ra
          (if started then tr else { tr with signals := tr.signals + 1 })
          started ws rds with
        | none => none
        | some (.fail ra2 ws2 rds2 tr2) => some (.err, ra2, ws2, rds2, tr2)
        | some (.got ra2 ws2 rds2 tr2 started2) =>
          od_io_read_loop startOk stopOk fuel ra2 acc size started2 ws2 rds2 tr2

/-- The framed stream read `od_io_read(io, dest, size, time_ms)` (io.h lines
87-153). `time_ms` is the budget handed to each `machine_cond_wait` call; in
the environment model the waits script already records how long each wait
lasted, so `time_ms` constrains the script (each wait lasts at most `time_ms`)
rather than the computation. On success the returned `ReadOutcome.ok` carries
the bytes copied into `dest`. -/
def od_io_read (ra : Readahead) (size : Nat) (time_ms : Nat)
    (ws : List MachineWait) (rds : List RawRead) (startOk stopOk : Bool) :
    Option (ReadOutcome × Readahead × List MachineWait × List RawRead × Trace) :=
  od_io_read_loop startOk stopOk (ws.length + 1) ra [] size false ws rds
    ⟨0, 0, false, false⟩

/-- Modelled from the spec: big-endian 32-bit value of the first four bytes
of a byte list (spec section 6, wire-format invariants). -/
def beU32 : List Nat → Nat
  | a :: b :: c :: d :: _ => ((a * 256 + b) * 256 + c) * 256 + d
  | _ => 0

/-- Modelled from the spec: `kiwi_read_size` reads the `length:u32_be` field
of the ordinary-message header `{type:u8, length:u32_be}` (spec sections 4.9
and 6); the kiwi library is outside the excerpt. -/
def kiwi_read_size (hdr : List Nat) : Nat :=
  beU32 (hdr.drop 1)

/-- Modelled from the spec: `kiwi_read_startup_size` reads the startup
packet's 4-byte big-endian length `L`, which counts itself, and returns the
`L - 4` remaining bytes to read (spec sections 4.9 and 6). -/
def kiwi_read_startup_size (hdr : List Nat) : Nat :=
  beU32 hdr - 4

/-- The `VALID_LONG_MESSAGE_TYPE` macro (io.h lines 190-193): message types
that may legitimately be long: T, D, d, V, E, N, A, B, P, Q. -/
def VALID_LONG_MESSAGE_TYPE (id : Nat) : Bool :=
  (id == 84) || (id == 68) || (id == 100) || (id == 86) || (id == 69) ||
    (id == 78) || (id == 65) || (id == 66) || (id == 80) || (id == 81)

/-- The protocol validation of `od_read` (io.h lines 207-211): the header is
rejected when `size < sizeof(uint32_t)`, or `type < 0x20`, or
`size > 30000` with a type outside `VALID_LONG_MESSAGE_TYPE`. -/
def od_read_header_rejected (hdr : List Nat) : Bool :=
  decide (kiwi_read_size hdr < 4) || decide (hdr.headI < 32) ||
    (decide (30000 < kiwi_read_size hdr) && !VALID_LONG_MESSAGE_TYPE hdr.headI)

/-- Result of `od_read` / `od_read_startup`: a complete message buffer with
the final stream state, a protocol rejection (only `od_read`; carries the
stream state at the moment of rejection, before any allocation or payload
read), or NULL from a failed `od_io_read`. -/
inductive MsgResult where
  | msg (bytes : List Nat) (ra : Readahead) (ws : List MachineWait)
      (rds : List RawRead)
  | protoErr (ra : Readahead) (ws : List MachineWait) (rds : List RawRead)
  | ioErr
  deriving Repr, DecidableEq

/-- The ordinary-message reader `od_read` (io.h lines 195-240): read the
5-byte header, validate it (rejecting before any allocation or payload read),
then read `length - 4` payload bytes and return header plus payload.
`machine_msg_create` is modelled as always succeeding: allocation failure is
an environment failure outside the excerpt. -/
def od_read (ra : Readahead) (time_ms : Nat) (ws : List MachineWait)
    (rds : List RawRead) (startOk stopOk : Bool) : Option MsgResult :=
  match od_io_read ra 5 time_ms ws rds startOk stopOk with
  | none => none
  | some (.err, _, _, _, _) => some .ioErr
  | some (.ok hdr, ra1, ws1, rds1, _) =>
    if od_read_header_rejected hdr then
      some (.protoErr ra1 ws1 rds1)
    else
      match od_io_read ra1 (kiwi_read_size hdr - 4) time_ms ws1 rds1
        startOk stopOk with
      | none => none
      | some (.err, _, _, _, _) => some .ioErr
      | some (.ok payload, ra2, ws2, rds2, _) =>
        some (.msg (hdr ++ payload) ra2 ws2 rds2)

/-- The startup-packet reader `od_read_startup` (io.h lines 155-184): read the
4-byte big-endian length header, then read the remaining `L - 4` bytes and
return the complete `L`-byte buffer. `machine_msg_create` is modelled as
always succeeding. -/
def od_read_startup (ra : Readahead) (time_ms : Nat) (ws : List MachineWait)
    (rds : List RawRead) (startOk stopOk : Bool) : Option MsgResult :=
  match od_io_read ra 4 time_ms ws rds startOk stopOk with
  | none => none
  | some (.err, _, _, _, _) => some .ioErr
  | some (.ok hdr, ra1, ws1, rds1, _) =>
    match od_io_read ra1 (kiwi_read_startup_size hdr) time_ms ws1 rds1
      startOk stopOk with
    | none => none
    | some (.err, _, _, _, _) => some .ioErr
    | some (.ok payload, ra2, ws2, rds2, _) =>
      some (.msg (hdr ++ payload) ra2 ws2 rds2)

/-- Teardown calls the excerpt can make on machine resources. -/
inductive FreeAction where
  | readaheadFree
  | condFree (c : Nat)
  | ioClose (h : Nat)
  | ioFree (h : Nat)
  deriving Repr, DecidableEq

/-- Resource fields of the `od_io` struct (io.h lines 14-20): the two
condition pointers (None models NULL) and the underlying machine I/O handle. -/
structure OdIoRes where
  on_read : Option Nat
  on_write : Option Nat
  io : Option Nat
  deriving Repr, DecidableEq

/-- The stream destructor `od_io_free` (io.h lines 31-39): free the readahead,
then `machine_cond_free` each non-NULL condition. The list records the
machine teardown calls it makes, in order. -/
def od_io_free (s : OdIoRes) : List FreeAction :=
  FreeAction.readaheadFree ::
    (s.on_read.toList.map FreeAction.condFree ++
      s.on_write.toList.map FreeAction.condFree)

/-- An action owned by the stream `s` itself: its readahead or one of its own
conditions; in particular never a close or free of the underlying handle. -/
def FreeAction.ownOnly (s : OdIoRes) : FreeAction → Bool
  | .readaheadFree => true
  | .condFree c => (s.on_read == some c) || (s.on_write == some c)
  | .ioClose _ => false
  | .ioFree _ => false

/-- One `machine_write(io, msg, time_ms)` call as issued by `od_write`. -/
structure MachineWriteCall where
  io : Nat
  msg : List Nat
  time_ms : Nat
  deriving Repr, DecidableEq

/-- The C constant `UINT32_MAX`. -/
def UINT32_MAX : Nat := 4294967295

/-- The framed stream write `od_write` (io.h lines 242-246): a single
`machine_write` of the message on the underlying handle with timeout
`UINT32_MAX`. -/
def od_write (io : Nat) (msg : List Nat) : MachineWriteCall :=
  ⟨io, msg, UINT32_MAX⟩

/-- C8: `od_io_free` destroys only the stream's own readahead buffer and its
own `on_read` / `on_write` conditions; it performs no `machine_close` and no
`machine_io_free` on the underlying handle, and its first action frees the
readahead. -/
theorem od_io_free_only_own_resources (s : OdIoRes) :
    ((od_io_free s).all (FreeAction.ownOnly s)) = true ∧
      (od_io_free s).head? = some FreeAction.readaheadFree := by
  constructor
  · rcases s with ⟨r, w, i⟩
    rcases r with _ | c₁ <;> rcases w with _ | c₂ <;>
      simp [od_io_free, FreeAction.ownOnly]
  · rfl

/-- Draining with a satisfied request copies nothing: with `size = 0` the
drain step leaves the readahead alone when it has unread bytes and merely
reuses it when it is drained. -/
theorem od_io_read_drain_zero (ra : Readahead) (acc : List Nat) :
    od_io_read_drain ra acc 0 =
      (if 0 < od_readahead_unread ra then ra else od_readahead_reuse ra,
        acc, 0) := by
  rcases ra with ⟨cap, data, pr⟩
  by_cases h : 0 < od_readahead_unread ⟨cap, data, pr⟩ <;>
    simp [od_io_read_drain, h]

/-- C9: for every stream state, timeout and environment script, `od_io_read`
with `size = 0` returns success immediately with no bytes copied, consuming no
condition wait and no raw read, producing the empty trace (no signal, no
read-start, no read-stop); the readahead is unchanged when it has unread
bytes, and a fully drained buffer is merely reset to positions 0. -/
theorem od_io_read_size_zero (ra : Readahead) (t : Nat) (ws : List MachineWait)
    (rds : List RawRead) (startOk stopOk : Bool) :
    od_io_read ra 0 t ws rds startOk stopOk =
      some (.ok [],
        (if 0 < od_readahead_unread ra then ra else ⟨ra.cap, [], 0⟩),
        ws, rds, ⟨0, 0, false, false⟩) := by
  have hd := od_io_read_drain_zero ra []
  by_cases h : 0 < od_readahead_unread ra
  · simp [od_io_read, od_io_read_loop, hd, h]
  · have h0 : od_readahead_unread ra = 0 := by omega
    simp [od_io_read, od_io_read_loop, hd, h, od_readahead_reuse, h0]

/-- C10: `od_write` always passes the timeout `UINT32_MAX = 2^32 - 1` to the
underlying `machine_write`, for every handle and every message; a framed write
is never bounded by a caller-supplied deadline. -/
theorem od_write_timeout_is_uint32_max :
    ∀ io msg, (od_write io msg).time_ms = UINT32_MAX ∧
      UINT32_MAX = 2 ^ 32 - 1 ∧ (od_write io msg).io = io ∧
      (od_write io msg).msg = msg :=
  fun io msg => ⟨rfl, by norm_num [UINT32_MAX], rfl, rfl⟩

/-- Draining preserves the total of bytes already copied plus bytes still
requested. -/
theorem od_io_read_drain_len (ra : Readahead) (acc : List Nat) (size : Nat) :
    (od_io_read_drain ra acc size).2.1.length + (od_io_read_drain ra acc size).2.2 =
      acc.length + size := by
  rcases ra with ⟨cap, data, pr⟩
  simp only [od_io_read_drain, od_readahead_unread]
  split_ifs with h
  · simp only [List.length_append, List.length_take, List.length_drop]
    omega
  · rfl

/-- Every successful run of the outer loop returns exactly the bytes already
copied plus the bytes still requested. -/
theorem od_io_read_loop_ok_length (startOk stopOk : Bool) :
    ∀ fuel ra acc size started ws rds tr bs ra2 ws2 rds2 tr2,
      od_io_read_loop startOk stopOk fuel ra acc size started ws rds tr =
        some (.ok bs, ra2, ws2, rds2, tr2) →
      bs.length = acc.length + size := by
  intro fuel
  induction fuel with
  | zero =>
    intro ra acc size started ws rds tr bs ra2 ws2 rds2 tr2 h
    simp [od_io_read_loop] at h
  | succ fuel ih =>
    intro ra acc size started ws rds tr bs ra2 ws2 rds2 tr2 h
    rcases hd : od_io_read_drain ra acc size with ⟨ra1, acc1, size1⟩
    have hdl : acc1.length + size1 = acc.length + size := by
      have hdl0 := od_io_read_drain_len ra acc size
      rw [hd] at hdl0
      simpa using hdl0
    simp only [od_io_read_loop, hd] at h
    by_cases h0 : size1 = 0
    · rw [if_pos h0] at h
      subst h0
      cases started <;> simp at h
      · obtain ⟨hb, -⟩ := h
        subst hb
        simpa using hdl
      · cases stopOk <;> simp at h
        obtain ⟨hb, -⟩ := h
        subst hb
        simpa using hdl
    · rw [if_neg h0] at h
      rcases hw : od_io_read_wait_loop startOk ra1
          (if started = true then tr else { tr with signals := tr.signals + 1 })
          started ws rds with - | io
      · rw [hw] at h
        simp at h
      · rw [hw] at h
        rcases io with ⟨ra3, ws3, rds3, tr3⟩ | ⟨ra3, ws3, rds3, tr3, started3⟩
        · simp at h
        · simp only at h
          have := ih ra3 acc1 size1 started3 ws3 rds3 tr3 bs ra2 ws2 rds2 tr2 h
          omega

/-- Every successful `od_io_read` delivers exactly the requested number of
bytes. -/
theorem od_io_read_ok_length (ra : Readahead) (n t : Nat) (ws : List MachineWait)
    (rds : List RawRead) (startOk stopOk : Bool) (bs : List Nat) (ra2 : Readahead)
    (ws2 : List MachineWait) (rds2 : List RawRead) (tr2 : Trace)
    (h : od_io_read ra n t ws rds startOk stopOk =
      some (.ok bs, ra2, ws2, rds2, tr2)) :
    bs.length = n := by
  have := od_io_read_loop_ok_length startOk stopOk (ws.length + 1) ra [] n false
    ws rds ⟨0, 0, false, false⟩ bs ra2 ws2 rds2 tr2 h
  simpa using this

/-- C1: for every destination size `n > 0`, timeout and environment, the
framed stream read `od_io_read` either copies exactly `n` bytes into the
destination and returns success, or returns failure; it never returns success
having delivered fewer (or more) than `n` bytes, and no partial count is
exposed: the success outcome carries exactly the `n` delivered bytes. -/
theorem od_io_read_exact_or_fail (ra : Readahead) (n t : Nat)
    (ws : List MachineWait) (rds : List RawRead) (startOk stopOk : Bool)
    (bs : List Nat) (ra2 : Readahead) (ws2 : List MachineWait)
    (rds2 : List RawRead) (tr2 : Trace) (hn : 0 < n)
    (h : od_io_read ra n t ws rds startOk stopOk =
      some (.ok bs, ra2, ws2, rds2, tr2)) :
    bs.length = n :=
  od_io_read_ok_length ra n t ws rds startOk stopOk bs ra2 ws2 rds2 tr2 h

/-- C1 witness: a concrete three-byte read served from the readahead delivers
exactly three bytes. -/
theorem od_io_read_exact_or_fail_case :
    0 < 3 ∧ ([1, 2, 3] : List Nat).length = 3 :=
  ⟨by decide,
    od_io_read_exact_or_fail ⟨8, [1, 2, 3, 4], 0⟩ 3 0 [] [] true true
      [1, 2, 3] ⟨8, [1, 2, 3, 4], 3⟩ [] [] ⟨0, 0, false, false⟩
      (by decide) (by decide)⟩

/-- The inner retry loop never touches the signal counter. -/
theorem od_io_read_wait_loop_signals (startOk : Bool) :
    ∀ ws ra tr started rds out,
      od_io_read_wait_loop startOk ra tr started ws rds = some out →
      out.trace.signals = tr.signals := by
  intro ws
  induction ws with
  | nil =>
    intro ra tr started rds out h
    simp [od_io_read_wait_loop] at h
  | cons w ws ih =>
    intro ra tr started rds out h
    simp only [od_io_read_wait_loop] at h
    split at h
    · cases h
      rfl
    · split at h
      · simp at h
      · cases h
        rfl
      · cases h
        rfl
      · split at h
        · simpa using ih _ _ _ _ _ h
        · split at h
          · simpa using ih _ _ _ _ _ h
          · cases h
            rfl

/-- When the inner retry loop hands control back to the outer loop, the
`read_started` flag never goes from set to unset, and on a surviving run on
which `machine_read_start` was recorded the flag is set (a failed
`machine_read_start` makes the whole call fail at once). -/
theorem od_io_read_wait_loop_started (startOk : Bool) :
    ∀ ws ra tr started rds ra2 ws2 rds2 tr2 started2,
      od_io_read_wait_loop startOk ra tr started ws rds =
        some (.got ra2 ws2 rds2 tr2 started2) →
      (started = true → started2 = true) ∧
        ((tr.readStartCalled = true → started = true) →
          (tr2.readStartCalled = true → started2 = true)) := by
  intro ws
  induction ws with
  | nil =>
    intro ra tr started rds ra2 ws2 rds2 tr2 started2 h
    simp [od_io_read_wait_loop] at h
  | cons w ws ih =>
    intro ra tr started rds ra2 ws2 rds2 tr2 started2 h
    simp only [od_io_read_wait_loop] at h
    split at h
    · cases h
    · split at h
      · simp at h
      · cases h
        exact ⟨fun a => a, fun hinv => hinv⟩
      · cases h
      · split at h
        · rename_i hs
          have H := ih _ _ _ _ _ _ _ _ _ h
          exact ⟨fun _ => H.1 hs, fun _ => H.2 (fun _ => hs)⟩
        · split at h
          · rename_i hs hso
            have H := ih _ _ _ _ _ _ _ _ _ h
            refine ⟨fun hc => absurd hc hs, fun _ => H.2 (fun _ => rfl)⟩
          · cases h

/-- Time accounting of the inner retry loop: when every scripted wait lasts at
most `t`, the recorded wait time grows by at most `t` per consumed wait event,
and the remaining script still satisfies the per-wait bound. -/
theorem od_io_read_wait_loop_time (startOk : Bool) (t : Nat) :
    ∀ ws ra tr started rds out,
      (∀ w ∈ ws, w.dur ≤ t) →
      od_io_read_wait_loop startOk ra tr started ws rds = some out →
      out.trace.waitTime + out.waits.length * t ≤ tr.waitTime + ws.length * t ∧
        ∀ w ∈ out.waits, w.dur ≤ t := by
  intro ws
  induction ws with
  | nil =>
    intro ra tr started rds out hwf h
    simp [od_io_read_wait_loop] at h
  | cons w ws ih =>
    intro ra tr started rds out hwf h
    have hwd : w.dur ≤ t := hwf w (by simp)
    have hwf1 : ∀ x ∈ ws, x.dur ≤ t := fun x hx => hwf x (by simp [hx])
    simp only [od_io_read_wait_loop] at h
    split at h
    · cases h
      refine ⟨?_, hwf1⟩
      simp only [InnerOut.trace, InnerOut.waits, List.length_cons]
      nlinarith
    · split at h
      · simp at h
      · cases h
        refine ⟨?_, hwf1⟩
        simp only [InnerOut.trace, InnerOut.waits, List.length_cons]
        nlinarith
      · cases h
        refine ⟨?_, hwf1⟩
        simp only [InnerOut.trace, InnerOut.waits, List.length_cons]
        nlinarith
      · split at h
        · have H := ih _ _ _ _ _ hwf1 h
          refine ⟨?_, H.2⟩
          refine le_trans H.1 ?_
          simp only [List.length_cons]
          nlinarith
        · split at h
          · have H := ih _ _ _ _ _ hwf1 h
            refine ⟨?_, H.2⟩
            refine le_trans H.1 ?_
            simp only [List.length_cons]
            nlinarith
          · cases h
            refine ⟨?_, hwf1⟩
            simp only [InnerOut.trace, InnerOut.waits, List.length_cons]
            nlinarith

/-- The signal counter never decreases across the outer loop. -/
theorem od_io_read_loop_signals_mono (startOk stopOk : Bool) :
    ∀ fuel ra acc size started ws rds tr out ra2 ws2 rds2 tr2,
      od_io_read_loop startOk stopOk fuel ra acc size started ws rds tr =
        some (out, ra2, ws2, rds2, tr2) →
      tr.signals ≤ tr2.signals := by
  intro fuel
  induction fuel with
  | zero =>
    intro ra acc size started ws rds tr out ra2 ws2 rds2 tr2 h
    simp [od_io_read_loop] at h
  | succ fuel ih =>
    intro ra acc size started ws rds tr out ra2 ws2 rds2 tr2 h
    rcases hd : od_io_read_drain ra acc size with ⟨ra1, acc1, size1⟩
    simp only [od_io_read_loop, hd] at h
    split at h
    · split at h
      · split at h
        · cases h
          exact le_refl _
        · cases h
          exact le_refl _
      · cases h
        exact le_refl _
    · split at h
      · simp at h
      · rename_i heq
        cases h
        have hs := od_io_read_wait_loop_signals startOk _ _ _ _ _ _ heq
        simp only [InnerOut.trace] at hs
        rw [hs]
        split <;> simp
      · rename_i heq
        have hs := od_io_read_wait_loop_signals startOk _ _ _ _ _ _ heq
        simp only [InnerOut.trace] at hs
        have := ih _ _ _ _ _ _ _ _ _ _ _ _ h
        rw [hs] at this
        refine le_trans ?_ this
        split <;> simp

/-- Once `read_started` is set, the outer loop performs no further
`machine_cond_signal` calls: the signal counter stays constant. -/
theorem od_io_read_loop_signals_started (startOk stopOk : Bool) :
    ∀ fuel ra acc size ws rds tr out ra2 ws2 rds2 tr2,
      od_io_read_loop startOk stopOk fuel ra acc size true ws rds tr =
        some (out, ra2, ws2, rds2, tr2) →
      tr2.signals = tr.signals := by
  intro fuel
  induction fuel with
  | zero =>
    intro ra acc size ws rds tr out ra2 ws2 rds2 tr2 h
    simp [od_io_read_loop] at h
  | succ fuel ih =>
    intro ra acc size ws rds tr out ra2 ws2 rds2 tr2 h
    rcases hd : od_io_read_drain ra acc size with ⟨ra1, acc1, size1⟩
    simp only [od_io_read_loop, hd] at h
    split at h
    · split at h
      · split at h
        · cases h
          rfl
        · cases h
          rfl
      · cases h
        rfl
    · split at h
      · simp at h
      · rename_i heq
        cases h
        have hs := od_io_read_wait_loop_signals startOk _ _ _ _ _ _ heq
        simpa [InnerOut.trace] using hs
      · rename_i heq
        have hs := od_io_read_wait_loop_signals startOk _ _ _ _ _ _ heq
        simp only [InnerOut.trace] at hs
        rename_i ra3 ws3 rds3 tr3 started3
        have hst := od_io_read_wait_loop_started startOk _ _ _ _ _ _ _ _ _ _ heq
        have hstarted3 : started3 = true := hst.1 rfl
        subst hstarted3
        have := ih _ _ _ _ _ _ _ _ _ _ _ h
        rw [this, hs]
        simp

/-- Read-stop discipline of the outer loop on successful runs: if
`machine_read_start` was recorded and the run returns success, then
`machine_read_stop` was called, provided the incoming trace is consistent
(a recorded read-start implies the flag is set). -/
theorem od_io_read_loop_start_stop (startOk stopOk : Bool) :
    ∀ fuel ra acc size started ws rds tr bs ra2 ws2 rds2 tr2,
      od_io_read_loop startOk stopOk fuel ra acc size started ws rds tr =
        some (.ok bs, ra2, ws2, rds2, tr2) →
      (tr.readStartCalled = true → started = true) →
      tr2.readStartCalled = true → tr2.readStopCalled = true := by
  intro fuel
  induction fuel with
  | zero =>
    intro ra acc size started ws rds tr bs ra2 ws2 rds2 tr2 h
    simp [od_io_read_loop] at h
  | succ fuel ih =>
    intro ra acc size started ws rds tr bs ra2 ws2 rds2 tr2 h hinv
    rcases hd : od_io_read_drain ra acc size with ⟨ra1, acc1, size1⟩
    simp only [od_io_read_loop, hd] at h
    split at h
    · split at h
      · split at h
        · cases h
          intro _
          rfl
        · simp at h
      · rename_i hns
        cases h
        intro hrs
        exact absurd (hinv hrs) hns
    · split at h
      · simp at h
      · simp at h
      · rename_i heq
        rename_i ra3 ws3 rds3 tr3 started3
        have hinv' : (if started = true then tr
            else { tr with signals := tr.signals + 1 }).readStartCalled = true →
            started = true := by
          split
          · rename_i hyes
            exact fun _ => hyes
          · exact hinv
        have hst := od_io_read_wait_loop_started startOk _ _ _ _ _ _ _ _ _ _ heq
        exact ih _ _ _ _ _ _ _ _ _ _ _ _ h (hst.2 hinv')

/-- Time accounting of the outer loop: when every scripted wait lasts at most
`t`, the recorded wait time grows by at most `t` per consumed wait event. -/
theorem od_io_read_loop_time (startOk stopOk : Bool) (t : Nat) :
    ∀ fuel ra acc size started ws rds tr out ra2 ws2 rds2 tr2,
      (∀ w ∈ ws, w.dur ≤ t) →
      od_io_read_loop startOk stopOk fuel ra acc size started ws rds tr =
        some (out, ra2, ws2, rds2, tr2) →
      tr2.waitTime + ws2.length * t ≤ tr.waitTime + ws.length * t := by
  intro fuel
  induction fuel with
  | zero =>
    intro ra acc size started ws rds tr out ra2 ws2 rds2 tr2 hwf h
    simp [od_io_read_loop] at h
  | succ fuel ih =>
    intro ra acc size started ws rds tr out ra2 ws2 rds2 tr2 hwf h
    rcases hd : od_io_read_drain ra acc size with ⟨ra1, acc1, size1⟩
    simp only [od_io_read_loop, hd] at h
    split at h
    · split at h
      · split at h
        · cases h
          exact le_refl _
        · cases h
          exact le_refl _
      · cases h
        exact le_refl _
    · split at h
      · simp at h
      · rename_i heq
        cases h
        have H := od_io_read_wait_loop_time startOk t _ _ _ _ _ _ hwf heq
        simp only [InnerOut.trace, InnerOut.waits] at H
        refine le_trans H.1 ?_
        split <;> simp
      · rename_i heq
        rename_i ra3 ws3 rds3 tr3 started3
        have H := od_io_read_wait_loop_time startOk t _ _ _ _ _ _ hwf heq
        simp only [InnerOut.trace, InnerOut.waits] at H
        have := ih _ _ _ _ _ _ _ _ _ _ _ _ H.2 h
        refine le_trans this (le_trans H.1 ?_)
        split <;> simp

/-- C3 counterexample: with `time_ms = 100` and an environment in which every
individual `machine_cond_wait` returns within its 100 ms budget (here two
waits of 60 ms each, each followed by a one-byte raw read), a single
`od_io_read` call accumulates 120 ms of waiting: the sum of the waiting time
within one call exceeds `time_ms`, because the code passes `time_ms` afresh
to every `machine_cond_wait`. -/
theorem od_io_read_budget_counterexample :
    od_io_read ⟨4, [], 0⟩ 2 100 [⟨true, 60⟩, ⟨true, 60⟩]
        [.bytes 1 [], .bytes 2 []] true true =
      some (.ok [1, 2], ⟨4, [1, 2], 2⟩, [], [], ⟨2, 120, false, false⟩) ∧
    (([⟨true, 60⟩, ⟨true, 60⟩] : List MachineWait).all
      fun w => decide (w.dur ≤ 100)) = true ∧
    ¬((120 : Nat) ≤ 100) := by
  refine ⟨by decide, by decide, by decide⟩

/-- C3 (amended): `timeout_ms` is granted anew to each individual
`machine_cond_wait`, not to the whole operation; consequently, when every
scripted wait respects its per-call budget `t`, the total waiting time of one
`od_io_read` call is bounded by `t` times the number of scripted waits, not
by `t` itself. -/
theorem od_io_read_budget_per_wait (ra : Readahead) (n t : Nat)
    (ws : List MachineWait) (rds : List RawRead) (startOk stopOk : Bool)
    (out : ReadOutcome) (ra2 : Readahead) (ws2 : List MachineWait)
    (rds2 : List RawRead) (tr2 : Trace)
    (hwf : ∀ w ∈ ws, w.dur ≤ t)
    (h : od_io_read ra n t ws rds startOk stopOk =
      some (out, ra2, ws2, rds2, tr2)) :
    tr2.waitTime ≤ ws.length * t := by
  simp only [od_io_read] at h
  have := od_io_read_loop_time startOk stopOk t (ws.length + 1) ra [] n false
    ws rds ⟨0, 0, false, false⟩ out ra2 ws2 rds2 tr2 hwf h
  simpa using le_trans (Nat.le_add_right tr2.waitTime (ws2.length * t)) this

/-- C3 (amended) witness: in the two-wait run the total waiting time 120 is
within the amended bound 2 · 100. -/
theorem od_io_read_budget_per_wait_case :
    (([⟨true, 60⟩, ⟨true, 60⟩] : List MachineWait).all
        fun w => decide (w.dur ≤ 100)) = true ∧
      (⟨2, 120, false, false⟩ : Trace).waitTime ≤
        ([⟨true, 60⟩, ⟨true, 60⟩] : List MachineWait).length * 100 :=
  ⟨by decide,
    od_io_read_budget_per_wait ⟨4, [], 0⟩ 2 100 [⟨true, 60⟩, ⟨true, 60⟩]
      [.bytes 1 [], .bytes 2 []] true true (.ok [1, 2]) ⟨4, [1, 2], 2⟩ [] []
      ⟨2, 120, false, false⟩ (by decide) (by decide)⟩

/-- C4 counterexample: a stream whose readahead holds three unread bytes at
positions 0..2 is drained by a five-byte read that then times out on its
first condition wait; after the failed call the read position has advanced to
3 and the unread count is 0, so the three buffered bytes are no longer
observable by a subsequent read — the timed-out call does have a partial
effect observable across calls. -/
theorem od_io_read_timeout_effect_counterexample :
    od_io_read ⟨8, [10, 11, 12], 0⟩ 5 100 [⟨false, 100⟩] [] true true =
      some (.err, ⟨8, [10, 11, 12], 3⟩, [], [], ⟨1, 100, false, false⟩) ∧
    od_readahead_unread ⟨8, [10, 11, 12], 0⟩ = 3 ∧
    od_readahead_unread ⟨8, [10, 11, 12], 3⟩ = 0 ∧
    ¬((⟨8, [10, 11, 12], 3⟩ : Readahead).pos_read =
      (⟨8, [10, 11, 12], 0⟩ : Readahead).pos_read) := by
  refine ⟨by decide, by decide, by decide, by decide⟩

/-- C4 (amended): when `od_io_read` fails with a timeout, readahead bytes
already drained by that call are consumed and not restored: if the readahead
held fewer unread bytes than requested and the first condition wait fails,
the call returns failure with the read position advanced past all previously
unread bytes, which are therefore lost to subsequent reads. Only a call that
consumed no unread bytes leaves the observable byte sequence unchanged. -/
theorem od_io_read_timeout_consumes_readahead (ra : Readahead) (n t d : Nat)
    (ws : List MachineWait) (rds : List RawRead) (startOk stopOk : Bool)
    (h1 : 0 < od_readahead_unread ra) (h2 : od_readahead_unread ra < n) :
    od_io_read ra n t (⟨false, d⟩ :: ws) rds startOk stopOk =
      some (.err, { ra with pos_read := ra.data.length }, ws, rds,
        ⟨1, d, false, false⟩) := by
  rcases ra with ⟨cap, data, pr⟩
  simp only [od_readahead_unread] at h1 h2
  have hmin : min (data.length - pr) n = data.length - pr := by omega
  have hpos : pr + (data.length - pr) = data.length := by omega
  have hsz : ¬(n - (data.length - pr) = 0) := by omega
  simp [od_io_read, od_io_read_loop, od_io_read_drain, od_readahead_unread,
    od_io_read_wait_loop, h1, hmin, hpos, hsz]

/-- C4 (amended) witness: the concrete three-unread-byte stream of the
counterexample instantiates the amended statement. -/
theorem od_io_read_timeout_consumes_readahead_case :
    0 < od_readahead_unread ⟨8, [10, 11, 12], 0⟩ ∧
    od_readahead_unread ⟨8, [10, 11, 12], 0⟩ < 5 ∧
    od_io_read ⟨8, [10, 11, 12], 0⟩ 5 100 [⟨false, 100⟩] [] true true =
      some (.err, ⟨8, [10, 11, 12], 3⟩, [], [], ⟨1, 100, false, false⟩) :=
  ⟨by decide, by decide,
    od_io_read_timeout_consumes_readahead ⟨8, [10, 11, 12], 0⟩ 5 100 100 [] []
      true true (by decide) (by decide)⟩

/-- The drain step leaves `size - min unread size` bytes still requested. -/
theorem od_io_read_drain_size (ra : Readahead) (acc : List Nat) (size : Nat) :
    (od_io_read_drain ra acc size).2.2 =
      size - min (od_readahead_unread ra) size := by
  rcases ra with ⟨cap, data, pr⟩
  simp only [od_io_read_drain, od_readahead_unread]
  split_ifs with h
  · rfl
  · simp
    omega

/-- A call that starts with fewer unread bytes than requested and
`read_started` unset performs at least one `machine_cond_signal`. -/
theorem od_io_read_loop_needs_io_signal (startOk stopOk : Bool) (fuel : Nat)
    (ra : Readahead) (acc : List Nat) (size : Nat) (ws : List MachineWait)
    (rds : List RawRead) (tr : Trace) (out : ReadOutcome) (ra2 : Readahead)
    (ws2 : List MachineWait) (rds2 : List RawRead) (tr2 : Trace)
    (hlt : od_readahead_unread ra < size)
    (h : od_io_read_loop startOk stopOk (fuel + 1) ra acc size false ws rds tr =
      some (out, ra2, ws2, rds2, tr2)) :
    tr.signals + 1 ≤ tr2.signals := by
  rcases hd : od_io_read_drain ra acc size with ⟨ra1, acc1, size1⟩
  have hsz : ¬(size1 = 0) := by
    have := od_io_read_drain_size ra acc size
    rw [hd] at this
    simp at this
    omega
  simp only [od_io_read_loop, hd] at h
  rw [if_neg hsz] at h
  split at h
  · simp at h
  · rename_i heq
    cases h
    have hs := od_io_read_wait_loop_signals startOk _ _ _ _ _ _ heq
    simp only [InnerOut.trace] at hs
    simp at hs
    omega
  · rename_i heq
    have hs := od_io_read_wait_loop_signals startOk _ _ _ _ _ _ heq
    simp only [InnerOut.trace] at hs
    simp at hs
    have hmono := od_io_read_loop_signals_mono startOk stopOk
      _ _ _ _ _ _ _ _ _ _ _ _ _ h
    omega

/-- C5 counterexample: an empty readahead, a two-byte request, and an
environment delivering one byte per raw read with no `EAGAIN`: the call
completes after two outer-loop iterations and `machine_cond_signal(on_read)`
runs twice, not exactly once — `read_started` is still unset on the second
iteration because no raw read ever returned a retryable error. -/
theorem od_io_read_signal_once_counterexample :
    od_io_read ⟨4, [], 0⟩ 2 100 [⟨true, 0⟩, ⟨true, 0⟩]
        [.bytes 7 [], .bytes 8 []] true true =
      some (.ok [7, 8], ⟨4, [7, 8], 2⟩, [], [], ⟨2, 0, false, false⟩) ∧
    ¬((2 : Nat) = 1) := by
  refine ⟨by decide, by decide⟩

/-- C5 (amended): in every call that needs I/O (the readahead cannot satisfy
the request), `machine_cond_signal(on_read)` is invoked at least once; it is
invoked again on each later outer-loop iteration entered while `read_started`
is still unset, and never again once `read_started` is set — the outer loop,
resumed with `read_started` set, performs no further signal. -/
theorem od_io_read_signal_discipline (ra : Readahead) (n t : Nat)
    (ws : List MachineWait) (rds : List RawRead) (startOk stopOk : Bool)
    (out : ReadOutcome) (ra2 : Readahead) (ws2 : List MachineWait)
    (rds2 : List RawRead) (tr2 : Trace) :
    (od_readahead_unread ra < n →
      od_io_read ra n t ws rds startOk stopOk =
        some (out, ra2, ws2, rds2, tr2) →
      1 ≤ tr2.signals) ∧
    (∀ fuel ra0 acc size ws0 rds0 tr0 out0 ra3 ws3 rds3 tr3,
      od_io_read_loop startOk stopOk fuel ra0 acc size true ws0 rds0 tr0 =
        some (out0, ra3, ws3, rds3, tr3) →
      tr3.signals = tr0.signals) := by
  constructor
  · intro hlt h
    simp only [od_io_read] at h
    have := od_io_read_loop_needs_io_signal startOk stopOk ws.length ra [] n
      ws rds ⟨0, 0, false, false⟩ out ra2 ws2 rds2 tr2 hlt h
    simpa using this
  · intro fuel ra0 acc size ws0 rds0 tr0 out0 ra3 ws3 rds3 tr3 h
    exact od_io_read_loop_signals_started startOk stopOk fuel ra0 acc size
      ws0 rds0 tr0 out0 ra3 ws3 rds3 tr3 h

/-- C5 (amended) witness: the two-signal run satisfies the lower bound, and a
concrete outer-loop resumption with `read_started` set leaves the signal
counter unchanged. -/
theorem od_io_read_signal_discipline_case :
    od_readahead_unread ⟨4, [], 0⟩ < 2 ∧
    1 ≤ (⟨2, 0, false, false⟩ : Trace).signals ∧
    (⟨0, 0, true, true⟩ : Trace).signals = (⟨0, 0, true, false⟩ : Trace).signals :=
  ⟨by decide,
    (od_io_read_signal_discipline ⟨4, [], 0⟩ 2 100 [⟨true, 0⟩, ⟨true, 0⟩]
      [.bytes 7 [], .bytes 8 []] true true (.ok [7, 8]) ⟨4, [7, 8], 2⟩ [] []
      ⟨2, 0, false, false⟩).1 (by decide) (by decide),
    (od_io_read_signal_discipline ⟨4, [], 0⟩ 2 100 [⟨true, 0⟩, ⟨true, 0⟩]
      [.bytes 7 [], .bytes 8 []] true true (.ok [7, 8]) ⟨4, [7, 8], 2⟩ [] []
      ⟨2, 0, false, false⟩).2 1 ⟨4, [9], 0⟩ [] 1 [] [] ⟨0, 0, true, false⟩
      (.ok [9]) ⟨4, [9], 1⟩ [] [] ⟨0, 0, true, true⟩ (by decide)⟩

/-- C6 counterexample: a run in which `machine_read_start` was invoked
(`read_started` set after an `EAGAIN`) and the next raw read hits a hard
error: the call returns failure without ever calling `machine_read_stop` —
the stop is not performed on the hard-error exit path. -/
theorem od_io_read_stop_counterexample :
    od_io_read ⟨4, [], 0⟩ 1 100 [⟨true, 0⟩, ⟨true, 0⟩] [.again, .hard]
        true true =
      some (.err, ⟨4, [], 0⟩, [], [], ⟨1, 0, true, false⟩) ∧
    (⟨1, 0, true, false⟩ : Trace).readStartCalled = true ∧
    (⟨1, 0, true, false⟩ : Trace).readStopCalled = false := by
  refine ⟨by decide, by decide, by decide⟩

/-- C6 (amended): `machine_read_stop` is guaranteed only on the success path:
in every call in which `machine_read_start` was invoked and that returns
success, `machine_read_stop` was called before returning; the failure exits
(condition-wait failure or timeout, failed `machine_read_start`, hard read
errors) return -1 without calling `machine_read_stop`. -/
theorem od_io_read_start_implies_stop_on_success (ra : Readahead) (n t : Nat)
    (ws : List MachineWait) (rds : List RawRead) (startOk stopOk : Bool)
    (bs : List Nat) (ra2 : Readahead) (ws2 : List MachineWait)
    (rds2 : List RawRead) (tr2 : Trace)
    (h : od_io_read ra n t ws rds startOk stopOk =
      some (.ok bs, ra2, ws2, rds2, tr2))
    (hs : tr2.readStartCalled = true) :
    tr2.readStopCalled = true := by
  simp only [od_io_read] at h
  exact od_io_read_loop_start_stop startOk stopOk (ws.length + 1) ra [] n
    false ws rds ⟨0, 0, false, false⟩ bs ra2 ws2 rds2 tr2 h (fun hc => hc) hs

/-- C6 (amended) witness: a concrete run that arms the edge trigger after an
`EAGAIN`, then completes, does call `machine_read_stop`. -/
theorem od_io_read_start_implies_stop_on_success_case :
    (⟨1, 0, true, true⟩ : Trace).readStartCalled = true ∧
    (⟨1, 0, true, true⟩ : Trace).readStopCalled = true :=
  ⟨by decide,
    od_io_read_start_implies_stop_on_success ⟨4, [], 0⟩ 1 100
      [⟨true, 0⟩, ⟨true, 0⟩] [.again, .bytes 5 []] true true [5] ⟨4, [5], 1⟩
      [] [] ⟨1, 0, true, true⟩ (by decide) (by decide)⟩

/-- C2: after a successful 5-byte header read, `od_read` fails with a
protocol rejection — returning at once, with the stream state exactly as the
header read left it, before any allocation or payload read — if and only if
the header has `length < 4`, or `type < 0x20`, or `length > 30000` with a
type outside `{T, D, d, V, E, N, A, B, P, Q}`; in particular a type-`D`
header with length 1000004 passes validation (the call goes on to read the
payload) while a type-`C` header with the same oversize length is rejected. -/
theorem od_read_protocol_validation (ra : Readahead) (t : Nat)
    (ws : List MachineWait) (rds : List RawRead) (startOk stopOk : Bool)
    (hdr : List Nat) (ra1 : Readahead) (ws1 : List MachineWait)
    (rds1 : List RawRead) (tr1 : Trace)
    (h : od_io_read ra 5 t ws rds startOk stopOk =
      some (.ok hdr, ra1, ws1, rds1, tr1)) :
    (od_read ra t ws rds startOk stopOk = some (.protoErr ra1 ws1 rds1) ↔
      od_read_header_rejected hdr = true) ∧
    od_read_header_rejected [68, 0, 15, 66, 68] = false ∧
    od_read_header_rejected [67, 0, 15, 66, 68] = true ∧
    30000 < kiwi_read_size [68, 0, 15, 66, 68] ∧
    od_read ⟨16, [68, 0, 15, 66, 68], 0⟩ t [] [] startOk stopOk = none ∧
    od_read ⟨16, [67, 0, 15, 66, 68], 0⟩ t [] [] startOk stopOk =
      some (.protoErr ⟨16, [67, 0, 15, 66, 68], 5⟩ [] []) := by
  refine ⟨?_, by decide, by decide, by decide, rfl, rfl⟩
  simp only [od_read, h]
  by_cases hb : od_read_header_rejected hdr = true
  · simp [hb]
  · simp only [Bool.not_eq_true] at hb
    rw [hb]
    simp only [Bool.false_eq_true, if_false]
    rcases h2 : od_io_read ra1 (kiwi_read_size hdr - 4) t ws1 rds1
        startOk stopOk with - | ⟨out2, ra3, ws3, rds3, tr3⟩
    · simp
    · rcases out2 with p | - <;> simp

/-- C2 witness: the concrete type-`C` oversize header, preloaded in the
readahead, instantiates the rejection equivalence. -/
theorem od_read_protocol_validation_case :
    (od_read ⟨16, [67, 0, 15, 66, 68], 0⟩ 100 [] [] true true =
        some (.protoErr ⟨16, [67, 0, 15, 66, 68], 5⟩ [] []) ↔
      od_read_header_rejected [67, 0, 15, 66, 68] = true) :=
  (od_read_protocol_validation ⟨16, [67, 0, 15, 66, 68], 0⟩ 100 [] [] true true
    [67, 0, 15, 66, 68] ⟨16, [67, 0, 15, 66, 68], 5⟩ [] [] ⟨0, 0, false, false⟩
    (by decide)).1

/-- C7: on success `od_read_startup` returns a buffer of exactly `L` bytes —
the 4-byte big-endian length `L` (which counts itself) followed by the
`L - 4` remaining payload bytes — and on success `od_read` returns a buffer
of exactly `5 + (length - 4)` bytes: the 5-byte header followed by the
payload, the ordinary-message length covering only the length field and the
payload, not the type byte. -/
theorem od_msg_buffer_layout (ra : Readahead) (t : Nat) (ws : List MachineWait)
    (rds : List RawRead) (startOk stopOk : Bool) (hdr bs : List Nat)
    (ra1 ra2 : Readahead) (ws1 ws2 : List MachineWait)
    (rds1 rds2 : List RawRead) (tr1 : Trace) :
    (od_io_read ra 4 t ws rds startOk stopOk =
        some (.ok hdr, ra1, ws1, rds1, tr1) →
      4 ≤ beU32 hdr →
      od_read_startup ra t ws rds startOk stopOk =
        some (.msg bs ra2 ws2 rds2) →
      bs.length = beU32 hdr ∧ bs.take 4 = hdr) ∧
    (od_io_read ra 5 t ws rds startOk stopOk =
        some (.ok hdr, ra1, ws1, rds1, tr1) →
      od_read ra t ws rds startOk stopOk = some (.msg bs ra2 ws2 rds2) →
      4 ≤ kiwi_read_size hdr ∧
        bs.length = 5 + (kiwi_read_size hdr - 4) ∧ bs.take 5 = hdr) := by
  constructor
  · intro h1 hL h3
    have hhdr : hdr.length = 4 :=
      od_io_read_ok_length _ _ _ _ _ _ _ _ _ _ _ _ h1
    simp only [od_read_startup, h1] at h3
    rcases h2 : od_io_read ra1 (kiwi_read_startup_size hdr) t ws1 rds1
        startOk stopOk with - | ⟨out2, ra3, ws3, rds3, tr3⟩
    · rw [h2] at h3
      simp at h3
    · rw [h2] at h3
      rcases out2 with p | -
      · have hp : p.length = kiwi_read_startup_size hdr :=
          od_io_read_ok_length _ _ _ _ _ _ _ _ _ _ _ _ h2
        simp only [Option.some.injEq, MsgResult.msg.injEq] at h3
        obtain ⟨hbs, -, -, -⟩ := h3
        subst hbs
        refine ⟨?_, ?_⟩
        · simp only [List.length_append, hhdr, hp, kiwi_read_startup_size]
          omega
        · rw [← hhdr]
          exact List.take_left hdr p
      · simp at h3
  · intro h1 h3
    have hhdr : hdr.length = 5 :=
      od_io_read_ok_length _ _ _ _ _ _ _ _ _ _ _ _ h1
    simp only [od_read, h1] at h3
    by_cases hb : od_read_header_rejected hdr = true
    · rw [if_pos hb] at h3
      simp at h3
    · simp only [Bool.not_eq_true] at hb
      rw [hb] at h3
      simp only [Bool.false_eq_true, if_false] at h3
      have hge : 4 ≤ kiwi_read_size hdr := by
        by_contra hlt
        simp only [od_read_header_rejected, Bool.or_eq_false_iff,
          decide_eq_false_iff_not, not_lt] at hb
        omega
      rcases h2 : od_io_read ra1 (kiwi_read_size hdr - 4) t ws1 rds1
          startOk stopOk with - | ⟨out2, ra3, ws3, rds3, tr3⟩
      · rw [h2] at h3
        simp at h3
      · rw [h2] at h3
        rcases out2 with p | -
        · have hp : p.length = kiwi_read_size hdr - 4 :=
            od_io_read_ok_length _ _ _ _ _ _ _ _ _ _ _ _ h2
          simp only [Option.some.injEq, MsgResult.msg.injEq] at h3
          obtain ⟨hbs, -, -, -⟩ := h3
          subst hbs
          refine ⟨hge, ?_, ?_⟩
          · simp [List.length_append, hhdr, hp]
          · rw [← hhdr]
            exact List.take_left hdr p
        · simp at h3

/-- C7 witness: a concrete 8-byte startup packet and a concrete type-`D`
message with 3-byte payload instantiate both buffer-layout statements. -/
theorem od_msg_buffer_layout_case :
    (([0, 0, 0, 8, 9, 9, 9, 9] : List Nat).length = beU32 [0, 0, 0, 8] ∧
      ([0, 0, 0, 8, 9, 9, 9, 9] : List Nat).take 4 = [0, 0, 0, 8]) ∧
    (4 ≤ kiwi_read_size [68, 0, 0, 0, 7] ∧
      ([68, 0, 0, 0, 7, 1, 2, 3] : List Nat).length =
        5 + (kiwi_read_size [68, 0, 0, 0, 7] - 4) ∧
      ([68, 0, 0, 0, 7, 1, 2, 3] : List Nat).take 5 = [68, 0, 0, 0, 7]) :=
  ⟨(od_msg_buffer_layout ⟨16, [0, 0, 0, 8, 9, 9, 9, 9], 0⟩ 100 [] [] true true
      [0, 0, 0, 8] [0, 0, 0, 8, 9, 9, 9, 9] ⟨16, [0, 0, 0, 8, 9, 9, 9, 9], 4⟩
      ⟨16, [0, 0, 0, 8, 9, 9, 9, 9], 8⟩ [] [] [] [] ⟨0, 0, false, false⟩).1
      (by decide) (by decide) (by decide),
    (od_msg_buffer_layout ⟨16, [68, 0, 0, 0, 7, 1, 2, 3], 0⟩ 100 [] [] true true
      [68, 0, 0, 0, 7] [68, 0, 0, 0, 7, 1, 2, 3] ⟨16, [68, 0, 0, 0, 7, 1, 2, 3], 5⟩
      ⟨16, [68, 0, 0, 0, 7, 1, 2, 3], 8⟩ [] [] [] [] ⟨0, 0, false, false⟩).2
      (by decide) (by decide)⟩
